import Mathlib

/-
Verification of the kmemleak trend-tracking and correlation core.

The single-file detector variant ("SlabSight") provides the snapshot list,
the fragmentation index, Pearson correlation and the correlation analysis;
the vmstatlist header provides the intrusive vmstat list.  Floating-point
`double` values are modelled as real numbers; C unsigned integers are
modelled as natural numbers, with 32-bit wraparound made explicit where the
code relies on it.
-/

namespace Kmemleak

/-- The `snapshot_t` record of the single-file detector, minus the intrusive
`next` pointer (the snapshot list is modelled as a Lean `List`).  Unsigned
integer fields become `ℕ`, `double` fields become `ℝ`. -/
structure snapshot_t where
  timestamp_sec : ℕ
  kmalloc_1k_active : ℕ
  kmalloc_4k_active : ℕ
  slab_reclaimable_objs : ℕ
  slab_unreclaimable_objs : ℕ
  slabs_scanned : ℕ
  pgalloc_dma : ℕ
  pgsteal_kswapd : ℕ
  order2_free_pages : ℕ
  order3_free_pages : ℕ
  metaspace_used_kb : ℕ
  metaspace_committed_kb : ℕ
  slabs_scanned_per_sec : ℝ
  allocation_rate_kb_per_sec : ℝ
  fragmentation_index : ℝ

/-- A snapshot whose fields are all zero except the timestamp; convenience
constructor used for concrete instances. -/
def snapTs (t : ℕ) : snapshot_t :=
  ⟨t, 0, 0, 0, 0, 0, 0, 0, 0, 0, 0, 0, 0, 0, 0⟩

/-- A snapshot whose fields are all zero except the two free-page-by-order
counters; convenience constructor used for concrete instances. -/
def snapOrders (o2 o3 : ℕ) : snapshot_t :=
  ⟨0, 0, 0, 0, 0, 0, 0, 0, o2, o3, 0, 0, 0, 0, 0⟩

/-- `calculate_fragmentation_index`: `weighted_sum` accumulates the two
products `order2_free_pages * 2` (weight 2) and `order3_free_pages * 3`
(weight 3), each computed in wrapping unsigned 32-bit arithmetic before the
conversion to double, and `total_free` is the wrapping unsigned 32-bit sum
of the two counters converted to double; a zero total yields 1.0, otherwise
the weighted sum over `total_free * 3.0` is subtracted from 1.
`weighted_sum` and `total_free` are inlined. -/
noncomputable def calculate_fragmentation_index (snap : snapshot_t) : ℝ :=
  if ((((snap.order2_free_pages + snap.order3_free_pages) % 2 ^ 32 : ℕ)) : ℝ) = 0 then 1
  else 1 - (((((snap.order2_free_pages * 2) % 2 ^ 32 : ℕ)) : ℝ) +
            ((((snap.order3_free_pages * 3) % 2 ^ 32 : ℕ)) : ℝ))
        / (((((snap.order2_free_pages + snap.order3_free_pages) % 2 ^ 32 : ℕ)) : ℝ) * 3)

/-- The unconditional tail append performed by `collection_loop` on its
`snapshot_list_t` (head/tail/count modelled by the list itself). -/
def collection_append (l : List snapshot_t) (snap : snapshot_t) : List snapshot_t :=
  l ++ [snap]

/-! ### The vmstat intrusive list (`vmstatlist.h`) -/

/-- A `struct vmstat` node: a metric name and its current unsigned value.
The embedded `list_head` is modelled by membership in a Lean `List`. -/
structure vmstat where
  name : String
  stats : ℕ
deriving DecidableEq, Repr

/-- `init_vmstat_list`: the freshly initialised circular list is empty. -/
def init_vmstat_list : List vmstat := []

/-- `list_add_vmstat`: inserts the new node directly after the list head,
i.e. at the front of the traversal order. -/
def list_add_vmstat (l : List vmstat) (new_stat : vmstat) : List vmstat :=
  new_stat :: l

/-- `list_find_vmstat`: first node whose name matches, traversing from the
head. -/
def list_find_vmstat (l : List vmstat) (name : String) : Option vmstat :=
  l.find? (fun e => e.name == name)

/-- C unsigned 32-bit subtraction `a - b`: the result is the unique value
below `2 ^ 32` congruent to `a - b` modulo `2 ^ 32`. -/
def usub32 (a b : ℕ) : ℕ :=
  (a + (2 ^ 32 - b % 2 ^ 32)) % 2 ^ 32

/-- In-place mutation `entry->stats = new_stats` of the first node whose
name matches. -/
def set_first_stats : List vmstat → String → ℕ → List vmstat
  | [], _, _ => []
  | e :: rest, name, v =>
      if e.name == name then ⟨e.name, v⟩ :: rest
      else e :: set_first_stats rest name v

/-- `list_update_or_add_vmstat`: if the name is present, overwrite its stats
and report the unsigned-wraparound difference; otherwise add a fresh node
and report a zero difference.  Returns the new list together with the
`diffvm.statsdiff` field. -/
def list_update_or_add_vmstat (l : List vmstat) (name : String) (new_stats : ℕ) :
    List vmstat × ℕ :=
  match list_find_vmstat l name with
  | some entry => (set_first_stats l name new_stats, usub32 new_stats entry.stats)
  | none => (list_add_vmstat l ⟨name, new_stats⟩, 0)

/-- `get_vmstat`: current value of a named metric, 0 when absent. -/
def get_vmstat (l : List vmstat) (name : String) : ℕ :=
  match list_find_vmstat l name with
  | some entry => entry.stats
  | none => 0

/-- The vmstat list obtained by running a sequence of
`list_update_or_add_vmstat` calls after `init_vmstat_list`. -/
def run_updates (calls : List (String × ℕ)) : List vmstat :=
  calls.foldl (fun l c => (list_update_or_add_vmstat l c.1 c.2).1) init_vmstat_list

/-- The value most recently passed for a name across a call sequence, if
any. -/
def last_value (calls : List (String × ℕ)) (name : String) : Option ℕ :=
  ((calls.filter (fun c => c.1 == name)).getLast?).map (fun c => c.2)

/-! ### Statistics over `double` arrays (`calculate_mean`, `calculate_stddev`,
`pearson_correlation`, `analyze_correlation`)

A C array `double *data` of length `n` is modelled as `Fin n → ℝ`. -/

/-- `calculate_mean`: arithmetic mean, 0 on the empty array. -/
noncomputable def calculate_mean (n : ℕ) (data : Fin n → ℝ) : ℝ :=
  if n = 0 then 0 else (∑ i, data i) / n

/-- The accumulated `variance` sum of `calculate_stddev` (and the
`sum_sq_x` / `sum_sq_y` sums of `pearson_correlation`): the sum of squared
deviations from the mean. -/
noncomputable def sum_sq_dev (n : ℕ) (data : Fin n → ℝ) : ℝ :=
  ∑ i, (data i - calculate_mean n data) ^ 2

/-- `calculate_stddev`: population standard deviation
`sqrt(variance / n)`, 0 on the empty array. -/
noncomputable def calculate_stddev (n : ℕ) (data : Fin n → ℝ) : ℝ :=
  if n = 0 then 0 else Real.sqrt (sum_sq_dev n data / n)

/-- The accumulated `numerator` sum of `pearson_correlation`. -/
noncomputable def pearson_numerator (n : ℕ) (x y : Fin n → ℝ) : ℝ :=
  ∑ i, (x i - calculate_mean n x) * (y i - calculate_mean n y)

/-- `pearson_correlation`: 0 when `n < 2`; otherwise the mean-centred
covariance sum over `sqrt(sum_sq_x * sum_sq_y)`, with a zero denominator
mapped to 0. -/
noncomputable def pearson_correlation (n : ℕ) (x y : Fin n → ℝ) : ℝ :=
  if n < 2 then 0
  else if Real.sqrt (sum_sq_dev n x * sum_sq_dev n y) = 0 then 0
  else pearson_numerator n x y / Real.sqrt (sum_sq_dev n x * sum_sq_dev n y)

/-- The `correlation_result_t` record. -/
structure correlation_result_t where
  correlation : ℝ
  coefficient_var : ℝ
  mean_pressure : ℝ

/-- The `coefficient_var` expression of `analyze_correlation`:
`stddev / mean` guarded by `mean != 0.0`. -/
noncomputable def coefficient_of_variation (n : ℕ) (data : Fin n → ℝ) : ℝ :=
  if calculate_mean n data ≠ 0 then calculate_stddev n data / calculate_mean n data
  else 0

/-- The `jvm_metaspace` array filled by `analyze_correlation`. -/
noncomputable def jvm_metaspace_series (l : List snapshot_t) : Fin l.length → ℝ :=
  fun i => ((l.get i).metaspace_used_kb : ℝ)

/-- The `kernel_slabs` array filled by `analyze_correlation`: the two slab
counters are summed in wrapping unsigned int arithmetic before the
conversion to double. -/
noncomputable def kernel_slabs_series (l : List snapshot_t) : Fin l.length → ℝ :=
  fun i => ((((l.get i).kmalloc_1k_active + (l.get i).kmalloc_4k_active) % 2 ^ 32 : ℕ) : ℝ)

/-- The `slab_scan_rates` array filled by `analyze_correlation`. -/
noncomputable def slab_scan_rates_series (l : List snapshot_t) : Fin l.length → ℝ :=
  fun i => (l.get i).slabs_scanned_per_sec

/-- `analyze_correlation`: the all-zero result below two snapshots,
otherwise Pearson correlation of the metaspace and kernel-slab series
together with coefficient of variation and mean of the scan-rate series. -/
noncomputable def analyze_correlation (l : List snapshot_t) : correlation_result_t :=
  if l.length < 2 then ⟨0, 0, 0⟩
  else
    ⟨pearson_correlation l.length (jvm_metaspace_series l) (kernel_slabs_series l),
     coefficient_of_variation l.length (slab_scan_rates_series l),
     calculate_mean l.length (slab_scan_rates_series l)⟩

/-! ### MetricSeries trend updates -/

/-- Modelled from the spec: the per-metric trend state of `analysis.h`
(invoked through `update_ema_for_slabs`, `compute_growth_for_slabs` and
`update_monotonic_for_slabs`), which is not in the source tree.  Fields
follow §3/§4.1 of the spec: last raw value, EMA value, monotonic streak. -/
structure MetricSeries where
  previous_value : ℕ
  ema_value : ℝ
  streak : ℕ

/-- Modelled from the spec: the growth signal of one update.  The spec
requires a sentinel "undefined/infinite growth" distinct from every
division result when growing from a zero baseline. -/
inductive GrowthSignal where
  | percent (v : ℝ)
  | undefined_growth

/-- Modelled from the spec: the per-cycle `TrendResult`. -/
structure TrendResult where
  growth : GrowthSignal
  ema_value : ℝ
  streak : ℕ

/-- Modelled from the spec: the first observation of a metric sets
`previous_value = ema_value = raw_value`, `streak = 0`,
`growth_percent = 0`. -/
noncomputable def metric_series_first (raw_value : ℕ) : MetricSeries × TrendResult :=
  (⟨raw_value, (raw_value : ℝ), 0⟩, ⟨.percent 0, (raw_value : ℝ), 0⟩)

/-- Modelled from the spec: `MetricSeries.update` on a non-first call:
the growth percentage is `(raw - prev) / prev * 100` for a nonzero
previous value, the sentinel for growth from a zero baseline, and 0 when
both are zero; EMA is the convex combination with weight `alpha`; the
streak increments exactly on strict increase. -/
noncomputable def metric_series_update (s : MetricSeries) (raw_value : ℕ) (alpha : ℝ) :
    MetricSeries × TrendResult :=
  let growth : GrowthSignal :=
    if s.previous_value ≠ 0 then
      .percent (((raw_value : ℝ) - (s.previous_value : ℝ)) / (s.previous_value : ℝ) * 100)
    else if 0 < raw_value then .undefined_growth
    else .percent 0
  let ema : ℝ := alpha * (raw_value : ℝ) + (1 - alpha) * s.ema_value
  let streak : ℕ := if s.previous_value < raw_value then s.streak + 1 else 0
  (⟨raw_value, ema, streak⟩, ⟨growth, ema, streak⟩)

/-! ## Claims -/

/-- C5: on a histogram whose considered free-page counts (orders 2 and 3)
are all zero, the fragmentation index is exactly 1.0 and no division is
reached. -/
theorem fragmentation_index_all_zero (snap : snapshot_t)
    (h2 : snap.order2_free_pages = 0) (h3 : snap.order3_free_pages = 0) :
    calculate_fragmentation_index snap = 1 := by
  simp [calculate_fragmentation_index, h2, h3]

/-- C5 witness: the concrete all-zero histogram. -/
theorem fragmentation_index_all_zero_witness :
    (snapOrders 0 0).order2_free_pages = 0 ∧ (snapOrders 0 0).order3_free_pages = 0 ∧
      calculate_fragmentation_index (snapOrders 0 0) = 1 :=
  ⟨rfl, rfl, fragmentation_index_all_zero (snapOrders 0 0) rfl rfl⟩

/-- When neither unsigned 32-bit product wraps, the index coincides with the
ideal weighting over unbounded integers. -/
theorem calculate_fragmentation_index_of_no_wrap (snap : snapshot_t)
    (hw2 : snap.order2_free_pages * 2 < 2 ^ 32) (hw3 : snap.order3_free_pages * 3 < 2 ^ 32) :
    calculate_fragmentation_index snap =
      if ((snap.order2_free_pages : ℝ) + (snap.order3_free_pages : ℝ)) = 0 then 1
      else 1 - ((snap.order2_free_pages : ℝ) * 2 + (snap.order3_free_pages : ℝ) * 3)
            / (((snap.order2_free_pages : ℝ) + (snap.order3_free_pages : ℝ)) * 3) := by
  have hs : (snap.order2_free_pages + snap.order3_free_pages) % 2 ^ 32 =
      snap.order2_free_pages + snap.order3_free_pages := Nat.mod_eq_of_lt (by omega)
  have hm2 : snap.order2_free_pages * 2 % 2 ^ 32 = snap.order2_free_pages * 2 :=
    Nat.mod_eq_of_lt hw2
  have hm3 : snap.order3_free_pages * 3 % 2 ^ 32 = snap.order3_free_pages * 3 :=
    Nat.mod_eq_of_lt hw3
  rw [calculate_fragmentation_index, hs, hm2, hm3]
  push_cast
  rfl

/-- Evaluation of the fragmentation index when nothing wraps and the total
free-page count is positive. -/
theorem calculate_fragmentation_index_of_pos (snap : snapshot_t)
    (hw2 : snap.order2_free_pages * 2 < 2 ^ 32) (hw3 : snap.order3_free_pages * 3 < 2 ^ 32)
    (h : 0 < snap.order2_free_pages + snap.order3_free_pages) :
    calculate_fragmentation_index snap =
      1 - ((snap.order2_free_pages : ℝ) * 2 + (snap.order3_free_pages : ℝ) * 3)
        / (((snap.order2_free_pages : ℝ) + (snap.order3_free_pages : ℝ)) * 3) := by
  rw [calculate_fragmentation_index_of_no_wrap snap hw2 hw3, if_neg]
  intro hc
  have h0 : ((snap.order2_free_pages + snap.order3_free_pages : ℕ) : ℝ) = 0 := by
    push_cast
    exact hc
  have := Nat.cast_eq_zero.mp h0
  omega

/-- C6 counterexample: at `o2 = 2^32 - 1`, `o3 = 2` the unsigned 32-bit
products and sum wrap (the total collapses to 1), so the program's
fragmentation index is about `-1.43e9`, far outside the claimed `[0, 1]`
range and off the claimed weighting formula. -/
theorem fragmentation_index_wrap_out_of_range :
    calculate_fragmentation_index (snapOrders (2 ^ 32 - 1) 2) < 0 := by
  norm_num [calculate_fragmentation_index, snapOrders]

/-- C6 (amended): when the unsigned 32-bit products `o2 * 2` and `o3 * 3` do
not wrap, the fragmentation index lies in `[0, 1]`, equals the fixed
weighting `1 - (2·o2 + 3·o3) / ((o2 + o3) · 3)` for a positive total, and a
histogram with all free pages at order 3 scores strictly closer to 0 than
one with all free pages at order 2; a wrapping input can leave the range. -/
theorem fragmentation_index_range_and_bias :
    (∀ snap : snapshot_t,
        snap.order2_free_pages * 2 < 2 ^ 32 → snap.order3_free_pages * 3 < 2 ^ 32 →
        0 ≤ calculate_fragmentation_index snap ∧ calculate_fragmentation_index snap ≤ 1) ∧
    (∀ snap : snapshot_t,
        snap.order2_free_pages * 2 < 2 ^ 32 → snap.order3_free_pages * 3 < 2 ^ 32 →
        0 < snap.order2_free_pages + snap.order3_free_pages →
        calculate_fragmentation_index snap =
          1 - ((snap.order2_free_pages : ℝ) * 2 + (snap.order3_free_pages : ℝ) * 3)
            / (((snap.order2_free_pages : ℝ) + (snap.order3_free_pages : ℝ)) * 3)) ∧
    (∀ sa sb : snapshot_t,
        sa.order2_free_pages = 0 → 0 < sa.order3_free_pages →
        sa.order3_free_pages * 3 < 2 ^ 32 →
        0 < sb.order2_free_pages → sb.order2_free_pages * 2 < 2 ^ 32 →
        sb.order3_free_pages = 0 →
        calculate_fragmentation_index sa < calculate_fragmentation_index sb) := by
  have hrange : ∀ snap : snapshot_t,
      snap.order2_free_pages * 2 < 2 ^ 32 → snap.order3_free_pages * 3 < 2 ^ 32 →
      0 ≤ calculate_fragmentation_index snap ∧ calculate_fragmentation_index snap ≤ 1 := by
    intro snap hw2 hw3
    by_cases h : 0 < snap.order2_free_pages + snap.order3_free_pages
    · rw [calculate_fragmentation_index_of_pos snap hw2 hw3 h]
      have ha : (0 : ℝ) ≤ (snap.order2_free_pages : ℝ) := Nat.cast_nonneg _
      have hb : (0 : ℝ) ≤ (snap.order3_free_pages : ℝ) := Nat.cast_nonneg _
      have htot : (0 : ℝ) < (snap.order2_free_pages : ℝ) + (snap.order3_free_pages : ℝ) := by
        have : (0 : ℝ) < ((snap.order2_free_pages + snap.order3_free_pages : ℕ) : ℝ) := by
          exact_mod_cast h
        push_cast at this
        linarith
      have hratio1 : ((snap.order2_free_pages : ℝ) * 2 + (snap.order3_free_pages : ℝ) * 3)
          / (((snap.order2_free_pages : ℝ) + (snap.order3_free_pages : ℝ)) * 3) ≤ 1 := by
        rw [div_le_one (by linarith)]
        linarith
      have hratio0 : 0 ≤ ((snap.order2_free_pages : ℝ) * 2 + (snap.order3_free_pages : ℝ) * 3)
          / (((snap.order2_free_pages : ℝ) + (snap.order3_free_pages : ℝ)) * 3) := by
        apply div_nonneg <;> linarith
      constructor <;> linarith
    · have h2 : snap.order2_free_pages = 0 := by omega
      have h3 : snap.order3_free_pages = 0 := by omega
      rw [fragmentation_index_all_zero snap h2 h3]
      norm_num
  refine ⟨hrange,
    fun snap hw2 hw3 h => calculate_fragmentation_index_of_pos snap hw2 hw3 h, ?_⟩
  intro sa sb h2a h3a hw3a h2b hw2b h3b
  have hsa : calculate_fragmentation_index sa = 0 := by
    rw [calculate_fragmentation_index_of_pos sa (by omega) hw3a (by omega), h2a]
    have hb : ((sa.order3_free_pages : ℝ)) ≠ 0 := by
      exact_mod_cast h3a.ne'
    push_cast
    field_simp
  have hsb : calculate_fragmentation_index sb = 1 / 3 := by
    rw [calculate_fragmentation_index_of_pos sb hw2b (by omega) (by omega), h3b]
    have ha : ((sb.order2_free_pages : ℝ)) ≠ 0 := by
      exact_mod_cast h2b.ne'
    push_cast
    field_simp
    ring
  rw [hsa, hsb]
  norm_num

/-- C6 witness: all mass at order 3 versus all mass at order 2, one page
each, both far below the wraparound bound. -/
theorem fragmentation_index_range_and_bias_witness :
    (snapOrders 0 1).order2_free_pages = 0 ∧ 0 < (snapOrders 0 1).order3_free_pages ∧
    (snapOrders 0 1).order3_free_pages * 3 < 2 ^ 32 ∧
    0 < (snapOrders 1 0).order2_free_pages ∧
    (snapOrders 1 0).order2_free_pages * 2 < 2 ^ 32 ∧
    (snapOrders 1 0).order3_free_pages = 0 ∧
    calculate_fragmentation_index (snapOrders 0 1) <
      calculate_fragmentation_index (snapOrders 1 0) :=
  ⟨rfl, Nat.one_pos, by decide, Nat.one_pos, by decide, rfl,
    fragmentation_index_range_and_bias.2.2 (snapOrders 0 1) (snapOrders 1 0)
      rfl Nat.one_pos (by decide) Nat.one_pos (by decide) rfl⟩

/-- C1 counterexample: a snapshot with timestamp 5 appended to a store whose
last timestamp is 10 is retained, not dropped, so the store changes. -/
theorem collection_append_out_of_order_not_noop :
    [snapTs 10].getLast? = some (snapTs 10) ∧
    (snapTs 5).timestamp_sec < (snapTs 10).timestamp_sec ∧
    collection_append [snapTs 10] (snapTs 5) ≠ [snapTs 10] := by
  refine ⟨rfl, by decide, fun h => ?_⟩
  have h2 := congrArg List.length h
  simp [collection_append] at h2

/-- C1 (amended): the append performed by `collection_loop` is
unconditional — every snapshot, also one whose timestamp precedes the last,
is appended at the tail and increments the count; the store retains exactly
the appended sequence in order, so retained timestamps are non-decreasing
only when the appended timestamps are. -/
theorem collection_append_unconditional :
    (∀ (l : List snapshot_t) (snap : snapshot_t),
        (collection_append l snap).length = l.length + 1 ∧
        (collection_append l snap).getLast? = some snap) ∧
    (∀ sl : List snapshot_t, List.foldl collection_append [] sl = sl) := by
  constructor
  · intro l snap
    refine ⟨by simp [collection_append], ?_⟩
    rw [collection_append]
    exact List.getLast?_concat _
  · have h : ∀ (sl acc : List snapshot_t), List.foldl collection_append acc sl = acc ++ sl := by
      intro sl
      induction sl with
      | nil => intro acc; simp
      | cons a tl ih =>
          intro acc
          rw [List.foldl_cons, ih]
          simp [collection_append]
    intro sl
    simpa using h sl []

/-- The in-place stats mutation leaves every node's name unchanged. -/
theorem set_first_stats_map_name (l : List vmstat) (n : String) (v : ℕ) :
    (set_first_stats l n v).map vmstat.name = l.map vmstat.name := by
  induction l with
  | nil => rfl
  | cons e rest ih =>
      by_cases he : e.name = n
      · simp [set_first_stats, he]
      · simp [set_first_stats, he, ih]

/-- `list_find_vmstat` on a cons cell. -/
theorem list_find_vmstat_cons (e : vmstat) (rest : List vmstat) (name : String) :
    list_find_vmstat (e :: rest) name =
      if e.name = name then some e else list_find_vmstat rest name := by
  rw [list_find_vmstat, List.find?_cons, list_find_vmstat]
  by_cases h : e.name = name
  · simp [h]
  · have hb : (e.name == name) = false := beq_eq_false_iff_ne.mpr h
    simp [hb, h]

/-- `list_find_vmstat` after the in-place stats mutation: the query for the
mutated name sees the new stats, every other query is unchanged. -/
theorem list_find_vmstat_set_first (l : List vmstat) (n : String) (v : ℕ) (name : String) :
    list_find_vmstat (set_first_stats l n v) name =
      if name = n then (list_find_vmstat l n).map (fun e => ⟨e.name, v⟩)
      else list_find_vmstat l name := by
  induction l with
  | nil => by_cases hn : name = n <;> simp [set_first_stats, list_find_vmstat, hn]
  | cons e rest ih =>
      by_cases he : e.name = n
      · by_cases hn : name = n
        · subst hn
          simp [set_first_stats, he, list_find_vmstat_cons]
        · have hn2 : ¬ n = name := fun hh => hn hh.symm
          simp [set_first_stats, he, list_find_vmstat_cons, hn, hn2]
      · by_cases hn : name = n
        · subst hn
          simp [set_first_stats, he, list_find_vmstat_cons, ih]
        · by_cases hen : e.name = name
          · simp [set_first_stats, he, list_find_vmstat_cons, hen, hn]
          · simp [set_first_stats, he, list_find_vmstat_cons, hen, hn, ih]

/-- One `list_update_or_add_vmstat` call, observed through `get_vmstat`. -/
theorem get_vmstat_update (l : List vmstat) (n : String) (v : ℕ) (name : String) :
    get_vmstat (list_update_or_add_vmstat l n v).1 name =
      if name = n then v else get_vmstat l name := by
  rcases hf : list_find_vmstat l n with _ | e
  · simp only [list_update_or_add_vmstat, hf, list_add_vmstat]
    by_cases hn : name = n
    · subst hn
      simp [get_vmstat, list_find_vmstat_cons]
    · have hn' : ¬ n = name := fun h => hn h.symm
      simp [get_vmstat, list_find_vmstat_cons, hn, hn']
  · simp only [list_update_or_add_vmstat, hf]
    by_cases hn : name = n
    · subst hn
      simp [get_vmstat, list_find_vmstat_set_first, hf]
    · simp [get_vmstat, list_find_vmstat_set_first, hn]

/-- One `list_update_or_add_vmstat` call preserves name uniqueness. -/
theorem update_pairwise (l : List vmstat) (n : String) (v : ℕ)
    (h : l.Pairwise (fun a b => a.name ≠ b.name)) :
    ((list_update_or_add_vmstat l n v).1).Pairwise (fun a b => a.name ≠ b.name) := by
  rcases hf : list_find_vmstat l n with _ | e
  · have hall : ∀ x ∈ l, x.name ≠ n := by
      rw [list_find_vmstat] at hf
      intro x hx
      have := List.find?_eq_none.mp hf x hx
      simpa using this
    simp only [list_update_or_add_vmstat, hf, list_add_vmstat]
    exact List.Pairwise.cons (fun b hb => Ne.symm (hall b hb)) h
  · simp only [list_update_or_add_vmstat, hf]
    have h2 : ((set_first_stats l n v).map vmstat.name).Pairwise (· ≠ ·) := by
      rw [set_first_stats_map_name]
      exact List.pairwise_map.mpr h
    exact List.pairwise_map.mp h2

/-- Any run of update calls after `init_vmstat_list` keeps names unique. -/
theorem run_pairwise_aux (calls : List (String × ℕ)) :
    ∀ l : List vmstat, l.Pairwise (fun a b => a.name ≠ b.name) →
      (calls.foldl (fun l c => (list_update_or_add_vmstat l c.1 c.2).1) l).Pairwise
        (fun a b => a.name ≠ b.name) := by
  induction calls with
  | nil => intro l h; simpa using h
  | cons c rest ih => intro l h; exact ih _ (update_pairwise l c.1 c.2 h)

/-- `last_value` over a call sequence extended on the right. -/
theorem last_value_concat (calls : List (String × ℕ)) (c : String × ℕ) (name : String) :
    last_value (calls ++ [c]) name =
      if c.1 = name then some c.2 else last_value calls name := by
  by_cases h : c.1 = name
  · simp [last_value, List.filter_append, h, List.getLast?_concat]
  · simp [last_value, List.filter_append, h]

/-- `get_vmstat` after a run of update calls from an arbitrary store. -/
theorem get_run_aux (calls : List (String × ℕ)) :
    ∀ (l : List vmstat) (name : String),
      get_vmstat (calls.foldl (fun l c => (list_update_or_add_vmstat l c.1 c.2).1) l) name =
        (last_value calls name).getD (get_vmstat l name) := by
  induction calls using List.reverseRecOn with
  | nil => intro l name; simp [last_value]
  | append_singleton calls c ih =>
      intro l name
      rw [List.foldl_append]
      simp only [List.foldl_cons, List.foldl_nil]
      rw [get_vmstat_update, last_value_concat]
      by_cases h : name = c.1
      · simp [h, ih]
      · have h' : ¬ c.1 = name := fun e => h e.symm
        simp [h, h', ih]

/-- C9: after `init_vmstat_list`, any sequence of `list_update_or_add_vmstat`
calls leaves each metric name at most once in the list, and `get_vmstat`
returns the value most recently passed for the name, or 0 when the name was
never observed. -/
theorem vmstat_names_unique_and_get_last (calls : List (String × ℕ)) (name : String) :
    (run_updates calls).Pairwise (fun a b => a.name ≠ b.name) ∧
    get_vmstat (run_updates calls) name = (last_value calls name).getD 0 := by
  constructor
  · exact run_pairwise_aux calls init_vmstat_list List.Pairwise.nil
  · have h := get_run_aux calls init_vmstat_list name
    simpa [run_updates, init_vmstat_list, get_vmstat, list_find_vmstat] using h

/-- C10: for a present name the returned `statsdiff` is the unsigned 32-bit
difference `new_stats - old_stats` modulo `2 ^ 32` (so a decrease wraps to a
large positive value); for an absent name it is 0. -/
theorem statsdiff_wraparound (l : List vmstat) (name : String) (v : ℕ) :
    (list_find_vmstat l name = none → (list_update_or_add_vmstat l name v).2 = 0) ∧
    (∀ e : vmstat, list_find_vmstat l name = some e → e.stats < 2 ^ 32 → v < 2 ^ 32 →
      (list_update_or_add_vmstat l name v).2 < 2 ^ 32 ∧
      ((list_update_or_add_vmstat l name v).2 + e.stats) % 2 ^ 32 = v ∧
      (v < e.stats →
        (list_update_or_add_vmstat l name v).2 = 2 ^ 32 - (e.stats - v))) := by
  constructor
  · intro hf
    simp [list_update_or_add_vmstat, hf]
  · intro e hf hes hv
    simp only [list_update_or_add_vmstat, hf]
    unfold usub32
    refine ⟨Nat.mod_lt _ (by norm_num), ?_, ?_⟩ <;> omega

/-- C10 witness: updating a present metric from 10 down to 4 wraps around. -/
theorem statsdiff_wraparound_witness :
    list_find_vmstat [⟨"a", 10⟩] "a" = some ⟨"a", 10⟩ ∧
    (10 : ℕ) < 2 ^ 32 ∧ (4 : ℕ) < 2 ^ 32 ∧
    (list_update_or_add_vmstat [⟨"a", 10⟩] "a" 4).2 < 2 ^ 32 ∧
    ((list_update_or_add_vmstat [⟨"a", 10⟩] "a" 4).2 + 10) % 2 ^ 32 = 4 ∧
    ((4 : ℕ) < 10 →
      (list_update_or_add_vmstat [⟨"a", 10⟩] "a" 4).2 = 2 ^ 32 - (10 - 4)) := by
  have h := (statsdiff_wraparound [⟨"a", 10⟩] "a" 4).2 ⟨"a", 10⟩ (by decide)
    (by norm_num) (by norm_num)
  exact ⟨by decide, by norm_num, by norm_num, h.1, h.2.1, h.2.2⟩

/-- The sum of squared deviations is nonnegative. -/
theorem sum_sq_dev_nonneg (n : ℕ) (x : Fin n → ℝ) : 0 ≤ sum_sq_dev n x :=
  Finset.sum_nonneg fun _ _ => sq_nonneg _

/-- Arrays of length 0 or 1 have no variance. -/
theorem sum_sq_dev_of_lt_two (n : ℕ) (x : Fin n → ℝ) (h : n < 2) : sum_sq_dev n x = 0 := by
  rcases n with _ | (_ | n)
  · simp [sum_sq_dev]
  · norm_num [sum_sq_dev, calculate_mean, Fin.sum_univ_succ]
  · omega

/-- C2: `pearson_correlation` returns 0 (not NaN or an error) below length 2
and whenever either series has zero variance; `analyze_correlation` over a
store of fewer than 2 snapshots returns the all-zero result. -/
theorem pearson_and_analyze_zero_cases :
    (∀ (n : ℕ) (x y : Fin n → ℝ),
        n < 2 ∨ sum_sq_dev n x = 0 ∨ sum_sq_dev n y = 0 →
        pearson_correlation n x y = 0) ∧
    (∀ l : List snapshot_t, l.length < 2 → analyze_correlation l = ⟨0, 0, 0⟩) := by
  constructor
  · intro n x y h
    rcases h with h | h | h
    · simp [pearson_correlation, h]
    · simp [pearson_correlation, h]
    · simp [pearson_correlation, h]
  · intro l h
    simp [analyze_correlation, h]

/-- C2 witness: a length-1 pair, a zero-variance pair of length 2, and the
empty store. -/
theorem pearson_and_analyze_zero_cases_witness :
    ((1 : ℕ) < 2 ∨ sum_sq_dev 1 (fun _ => (3 : ℝ)) = 0 ∨
        sum_sq_dev 1 (fun _ => (4 : ℝ)) = 0) ∧
    pearson_correlation 1 (fun _ => (3 : ℝ)) (fun _ => (4 : ℝ)) = 0 ∧
    ((2 : ℕ) < 2 ∨ sum_sq_dev 2 (fun _ => (5 : ℝ)) = 0 ∨ sum_sq_dev 2 ![1, 2] = 0) ∧
    pearson_correlation 2 (fun _ => (5 : ℝ)) ![1, 2] = 0 ∧
    ([] : List snapshot_t).length < 2 ∧
    analyze_correlation [] = ⟨0, 0, 0⟩ := by
  have hvar : sum_sq_dev 2 (fun _ => (5 : ℝ)) = 0 := by
    norm_num [sum_sq_dev, calculate_mean, Fin.sum_univ_two]
  exact ⟨Or.inl (by norm_num),
    pearson_and_analyze_zero_cases.1 1 _ _ (Or.inl (by norm_num)),
    Or.inr (Or.inl hvar),
    pearson_and_analyze_zero_cases.1 2 _ _ (Or.inr (Or.inl hvar)),
    by norm_num,
    pearson_and_analyze_zero_cases.2 [] (by norm_num)⟩

/-- C3: for every pair of equal-length series the Pearson correlation lies
in the closed interval `[-1, 1]`. -/
theorem pearson_correlation_bounded (n : ℕ) (x y : Fin n → ℝ) :
    -1 ≤ pearson_correlation n x y ∧ pearson_correlation n x y ≤ 1 := by
  have habs : |pearson_correlation n x y| ≤ 1 := by
    by_cases hn : n < 2
    · simp [pearson_correlation, hn]
    · by_cases hd : Real.sqrt (sum_sq_dev n x * sum_sq_dev n y) = 0
      · simp [pearson_correlation, hn, hd]
      · rw [pearson_correlation, if_neg hn, if_neg hd]
        have hdpos : 0 < Real.sqrt (sum_sq_dev n x * sum_sq_dev n y) :=
          lt_of_le_of_ne (Real.sqrt_nonneg _) (Ne.symm hd)
        rw [abs_div, abs_of_pos hdpos, div_le_one hdpos]
        have hcs : (pearson_numerator n x y) ^ 2 ≤ sum_sq_dev n x * sum_sq_dev n y := by
          unfold pearson_numerator sum_sq_dev
          exact Finset.sum_mul_sq_le_sq_mul_sq Finset.univ _ _
        calc |pearson_numerator n x y|
            = Real.sqrt ((pearson_numerator n x y) ^ 2) := (Real.sqrt_sq_eq_abs _).symm
          _ ≤ Real.sqrt (sum_sq_dev n x * sum_sq_dev n y) := Real.sqrt_le_sqrt hcs
  exact abs_le.mp habs

/-- C4: Pearson correlation is symmetric in its two series, and a series
with nonzero variance correlates perfectly with itself. -/
theorem pearson_symm_and_self :
    (∀ (n : ℕ) (x y : Fin n → ℝ),
        pearson_correlation n x y = pearson_correlation n y x) ∧
    (∀ (n : ℕ) (x : Fin n → ℝ), sum_sq_dev n x ≠ 0 → pearson_correlation n x x = 1) := by
  constructor
  · intro n x y
    have hnum : pearson_numerator n x y = pearson_numerator n y x := by
      unfold pearson_numerator
      exact Finset.sum_congr rfl fun i _ => mul_comm _ _
    rw [pearson_correlation, pearson_correlation, hnum,
      mul_comm (sum_sq_dev n x) (sum_sq_dev n y)]
  · intro n x hx
    have hn : ¬ n < 2 := fun h => hx (sum_sq_dev_of_lt_two n x h)
    have hpos : 0 < sum_sq_dev n x :=
      lt_of_le_of_ne (sum_sq_dev_nonneg n x) (Ne.symm hx)
    have hnum : pearson_numerator n x x = sum_sq_dev n x := by
      unfold pearson_numerator sum_sq_dev
      exact Finset.sum_congr rfl fun i _ => by ring
    have hsqrt : Real.sqrt (sum_sq_dev n x * sum_sq_dev n x) = sum_sq_dev n x :=
      Real.sqrt_mul_self hpos.le
    rw [pearson_correlation, if_neg hn, hsqrt, if_neg hx, hnum, div_self hx]

/-- C4 witness: the series `(0, 1)` has nonzero variance and self-correlation
exactly 1. -/
theorem pearson_symm_and_self_witness :
    sum_sq_dev 2 ![(0 : ℝ), 1] ≠ 0 ∧
    pearson_correlation 2 ![(0 : ℝ), 1] ![(0 : ℝ), 1] = 1 := by
  have hne : sum_sq_dev 2 ![(0 : ℝ), 1] ≠ 0 := by
    norm_num [sum_sq_dev, calculate_mean, Fin.sum_univ_two]
  exact ⟨hne, pearson_symm_and_self.2 2 _ hne⟩

/-- C7: the coefficient of variation is the population standard deviation
over the mean for a nonzero mean, 0 for a zero mean, and 0 on every
constant series. -/
theorem coefficient_of_variation_spec :
    (∀ (n : ℕ) (data : Fin n → ℝ),
        (calculate_mean n data ≠ 0 →
          coefficient_of_variation n data =
            calculate_stddev n data / calculate_mean n data) ∧
        (calculate_mean n data = 0 → coefficient_of_variation n data = 0)) ∧
    (∀ (n : ℕ) (c : ℝ), coefficient_of_variation n (fun _ => c) = 0) := by
  have hmean_const : ∀ (n : ℕ) (c : ℝ), n ≠ 0 → calculate_mean n (fun _ => c) = c := by
    intro n c hn
    have hcast : (n : ℝ) ≠ 0 := Nat.cast_ne_zero.mpr hn
    rw [calculate_mean, if_neg hn, Finset.sum_const, Finset.card_univ, Fintype.card_fin,
      nsmul_eq_mul]
    field_simp
  constructor
  · intro n data
    constructor
    · intro h; simp [coefficient_of_variation, h]
    · intro h; simp [coefficient_of_variation, h]
  · intro n c
    by_cases hn : n = 0
    · subst hn
      simp [coefficient_of_variation, calculate_mean]
    · have hm := hmean_const n c hn
      have hssd : sum_sq_dev n (fun _ => c) = 0 := by
        simp [sum_sq_dev, hm]
      have hstd : calculate_stddev n (fun _ => c) = 0 := by
        simp [calculate_stddev, hn, hssd]
      by_cases hc : c = 0
      · rw [hc] at hm
        simp [coefficient_of_variation, hc, hm]
      · simp [coefficient_of_variation, hm, hstd, hc]

/-- C7 witness: a constant nonzero singleton and the empty series. -/
theorem coefficient_of_variation_spec_witness :
    calculate_mean 1 (fun _ => (2 : ℝ)) ≠ 0 ∧
    coefficient_of_variation 1 (fun _ => (2 : ℝ)) =
      calculate_stddev 1 (fun _ => (2 : ℝ)) / calculate_mean 1 (fun _ => (2 : ℝ)) ∧
    calculate_mean 0 (fun _ => (2 : ℝ)) = 0 ∧
    coefficient_of_variation 0 (fun _ => (2 : ℝ)) = 0 := by
  have h1 : calculate_mean 1 (fun _ => (2 : ℝ)) ≠ 0 := by
    norm_num [calculate_mean, Fin.sum_univ_one]
  have h0 : calculate_mean 0 (fun _ => (2 : ℝ)) = 0 := by
    simp [calculate_mean]
  exact ⟨h1, (coefficient_of_variation_spec.1 1 _).1 h1, h0,
    (coefficient_of_variation_spec.1 0 _).2 h0⟩

/-- C8: on a non-first update the growth signal performs no division by
zero: it is the percentage formula for a nonzero previous value, the
sentinel for growth from a zero baseline, and 0 when both values are 0. -/
theorem metric_update_growth_no_division_by_zero (s : MetricSeries) (raw_value : ℕ)
    (alpha : ℝ) :
    (s.previous_value ≠ 0 →
      (metric_series_update s raw_value alpha).2.growth =
        GrowthSignal.percent
          (((raw_value : ℝ) - (s.previous_value : ℝ)) / (s.previous_value : ℝ) * 100)) ∧
    (s.previous_value = 0 → 0 < raw_value →
      (metric_series_update s raw_value alpha).2.growth =
        GrowthSignal.undefined_growth) ∧
    (s.previous_value = 0 → raw_value = 0 →
      (metric_series_update s raw_value alpha).2.growth = GrowthSignal.percent 0) := by
  refine ⟨fun h => ?_, fun h hr => ?_, fun h hr => ?_⟩
  · simp [metric_series_update, h]
  · simp [metric_series_update, h, hr]
  · simp [metric_series_update, h, hr]

/-- C8 witness: a 100 → 120 update yields the 20 percent growth formula. -/
theorem metric_update_growth_witness :
    ((⟨100, (100 : ℝ), 0⟩ : MetricSeries).previous_value ≠ 0) ∧
    (metric_series_update ⟨100, (100 : ℝ), 0⟩ 120 (3 / 10)).2.growth =
      GrowthSignal.percent
        ((((120 : ℕ) : ℝ) - ((100 : ℕ) : ℝ)) / ((100 : ℕ) : ℝ) * 100) := by
  have h : (⟨100, (100 : ℝ), 0⟩ : MetricSeries).previous_value ≠ 0 := by decide
  exact ⟨h,
    (metric_update_growth_no_division_by_zero ⟨100, (100 : ℝ), 0⟩ 120 (3 / 10)).1 h⟩

end Kmemleak
